import Mathlib

set_option autoImplicit false

namespace InstagramDL

/-- A Python `str` is modelled as a list of characters. -/
abbrev Str := List Char

/-! ## Model of CPython `urllib.parse.urlparse`

`InstagramDownloader.clean_url` calls the standard library's `urlparse`.
We model CPython's `urlsplit`/`urlparse` (3.11-era) for inputs that do not
contain `[` or `]` (bracketed hosts, for which CPython may raise
`ValueError`) and whose netloc is ASCII (so the NFKC netloc check is a
no-op).  Within that domain the translation below follows the CPython
algorithm step by step: strip leading C0-control/space characters, delete
tab/CR/LF, split off a scheme (a leading `alpha (alphanum|+|-|.)*` before
the first `:`; the scheme is lowercased), split off a `//netloc` delimited
by `/?#`, split the fragment at the first `#`, the query at the first `?`,
and, for schemes in `uses_params`, split `;params` from the last path
segment. -/

/-- The characters CPython's `urlsplit` deletes from the URL
(`_UNSAFE_URL_BYTES_TO_REMOVE`: tab, carriage return, newline). -/
def tabCrLf (c : Char) : Bool := c = '\t' || c = '\r' || c = '\n'

/-- WHATWG "C0 control or space": the characters `lstrip`ped from the front. -/
def ctrlOrSpace (c : Char) : Bool := c ≤ ' '

/-- The input normalisation `urlsplit` applies before parsing. -/
def presplit (s : Str) : Str := (s.dropWhile ctrlOrSpace).filter (fun c => !tabCrLf c)

/-- CPython `scheme_chars`: letters, digits, `+`, `-`, `.`. -/
def isSchemeChar (c : Char) : Bool := c.isAlphanum || c = '+' || c = '-' || c = '.'

/-- Split a list at the first occurrence of `c`: Python `s.split(c, 1)`
when `c` occurs, `none` otherwise. -/
def splitAtChar (c : Char) : Str → Option (Str × Str)
  | [] => none
  | x :: xs =>
    if x = c then some ([], xs)
    else (splitAtChar c xs).map (fun p => (x :: p.1, p.2))

/-- Scheme detection of `urlsplit`: if the text before the first `:` is a
nonempty ASCII-alpha-initial run of scheme characters, it is the scheme
(lowercased) and the rest follows the colon; otherwise there is no scheme. -/
def splitScheme (s : Str) : Str × Str :=
  match splitAtChar ':' s with
  | some (c :: cs, rest) =>
    if c.isAlpha && cs.all isSchemeChar then ((c :: cs).map Char.toLower, rest)
    else ([], s)
  | _ => ([], s)

/-- The delimiters ending a netloc in `_splitnetloc`. -/
def netDelim (c : Char) : Bool := c = '/' || c = '?' || c = '#'

/-- `_splitnetloc` after the leading `//` has been removed. -/
def splitNetloc (s : Str) : Str × Str :=
  (s.takeWhile (fun c => !netDelim c), s.dropWhile (fun c => !netDelim c))

/-- Decompose `s` as `pre ++ '/' :: post` where `post` holds no `/`
(i.e. locate Python's `s.rfind('/')`), if `s` contains a slash. -/
def splitLastSlash : Str → Option (Str × Str)
  | [] => none
  | x :: xs =>
    match splitLastSlash xs with
    | some p => some (x :: p.1, p.2)
    | none => if x = '/' then some ([], xs) else none

/-- CPython `_splitparams`: split `;params` searching from the last `/`
(from the start when there is no `/`). Returns `(s, [])` when no `;` is
found in the searched region, matching `find(...) < 0`. -/
def splitParams (s : Str) : Str × Str :=
  match splitLastSlash s with
  | some (pre, post) =>
    match splitAtChar ';' post with
    | some (b1, b2) => (pre ++ '/' :: b1, b2)
    | none => (s, [])
  | none =>
    match splitAtChar ';' s with
    | some (b1, b2) => (b1, b2)
    | none => (s, [])

/-- CPython `uses_params`. -/
def usesParams : List Str :=
  [[], "ftp".toList, "hdl".toList, "prospero".toList, "http".toList,
   "imap".toList, "https".toList, "shttp".toList, "rtsp".toList,
   "rtspu".toList, "sip".toList, "sips".toList, "mms".toList,
   "sftp".toList, "tel".toList]

/-- The result of `urlparse`. -/
structure UrlParts where
  scheme : Str
  netloc : Str
  path : Str
  params : Str
  query : Str
  fragment : Str
deriving DecidableEq, Repr

/-- `urllib.parse.urlparse` (see the module comment above for the domain). -/
def urlparse (u : Str) : UrlParts :=
  let s := presplit u
  let p1 := splitScheme s
  let scheme := p1.1
  let p2 := if p1.2.take 2 = ['/', '/'] then splitNetloc (p1.2.drop 2) else ([], p1.2)
  let netloc := p2.1
  let p3 := match splitAtChar '#' p2.2 with
    | some q => (q.1, q.2)
    | none => (p2.2, [])
  let fragment := p3.2
  let p4 := match splitAtChar '?' p3.1 with
    | some q => (q.1, q.2)
    | none => (p3.1, [])
  let query := p4.2
  let p5 := if scheme ∈ usesParams then splitParams p4.1 else (p4.1, [])
  ⟨scheme, netloc, p5.1, p5.2, query, fragment⟩

/-- `if path.endswith('/'): path = path[:-1]` (downloader.py lines 89-91). -/
def stripSlash (p : Str) : Str := if p.getLast? = some '/' then p.dropLast else p

/-- `InstagramDownloader.clean_url` (downloader.py lines 77-92):
parse the URL, drop one trailing slash from the path, and rebuild
`f"{scheme}://{netloc}{path}"` (params, query and fragment are dropped). -/
def clean_url (u : Str) : Str :=
  let p := urlparse u
  p.scheme ++ ':' :: '/' :: '/' :: (p.netloc ++ stripSlash p.path)

/-! ## URL classification (`INSTAGRAM_PATTERNS`, `validate_instagram_url`)

Each pattern has the shape `(https?://)?(www\.)?LITERAL[^/?#&]+` where
`LITERAL` is the category-specific path prefix, and `re.match` anchors at
the start of the string.  Because no `LITERAL` starts with `http` or
`www.`, the regex backtracking over the two optional groups is equivalent
to the deterministic strategy below: strip `https://` or `http://` if
literally present, then strip `www.` if literally present, then require
`LITERAL` followed by at least one character outside `/?#&`. -/

/-- Strip the literal `lit` from the front of `s`, or fail. -/
def dropLit : Str → Str → Option Str
  | [], s => some s
  | _ :: _, [] => none
  | l :: ls, x :: xs => if x = l then dropLit ls xs else none

/-- Strip the optional `(https?://)?(www\.)?` prefix. -/
def stripSchemeWww (s : Str) : Str :=
  let s1 := match dropLit ("https://".toList) s with
    | some r => r
    | none =>
      match dropLit ("http://".toList) s with
      | some r => r
      | none => s
  match dropLit ("www.".toList) s1 with
  | some r => r
  | none => s1

/-- The character class `[^/?#&]`. -/
def pathDelim (c : Char) : Bool := c = '/' || c = '?' || c = '#' || c = '&'

/-- `re.match` of one `INSTAGRAM_PATTERNS` entry against the URL. -/
def matchPattern (lit : Str) (u : Str) : Bool :=
  match dropLit lit (stripSchemeWww u) with
  | some (c :: _) => !pathDelim c
  | _ => false

/-- `InstagramDownloader.validate_instagram_url` (downloader.py lines
61-75): try the five patterns in dictionary insertion order (post, reel,
highlight, highlights, stories) and record the first matching category;
`none` models returning `False` with no category recorded. -/
def validate_instagram_url (u : Str) : Option Str :=
  if matchPattern ("instagram.com/p/".toList) u then some ("post".toList)
  else if matchPattern ("instagram.com/reel/".toList) u then some ("reel".toList)
  else if matchPattern ("instagram.com/s/aGlnaGxpZ2h0".toList) u then some ("highlight".toList)
  else if matchPattern ("instagram.com/stories/highlights/".toList) u then some ("highlights".toList)
  else if matchPattern ("instagram.com/stories/".toList) u then some ("stories".toList)
  else none

/-! ## Raw extractor records

gallery-dl hands the downloader a list of untyped nested dicts.  The
structures below model the keys the downloader reads.  An `Option`
distinguishes a present key from an absent one; where the code treats a
present-but-`None` value exactly like an absent key (or like an empty
list) the two are collapsed into one representation, noted field by
field.  Scalar values (ids, timestamps) are modelled as strings. -/

/-- An `owner` / `user` / `coauthor_producers[i]` dict: only `username`
and `id` are read, each itself possibly `None`. -/
structure RawUser where
  username : Option Str
  id : Option Str
deriving DecidableEq, Repr

/-- A `caption` dict; only `text` is read (`.get('text', '')`). -/
structure RawCaption where
  text : Option Str
deriving DecidableEq, Repr

/-- A `usertags.in[i]` dict; its `user` sub-dict is read. -/
structure RawTag where
  user : RawUser
deriving DecidableEq, Repr

/-- One entry of `video_versions` or `image_versions2.candidates`;
only `url` is read. -/
structure MediaVersion where
  url : Option Str
deriving DecidableEq, Repr

/-- An `image_versions2` dict.  `candidates` is read with
`.get('candidates', [])`, and a `None` value is falsy like `[]`, so
absent/`None` collapse into the empty list. -/
structure ImageVersions2 where
  candidates : List MediaVersion
deriving DecidableEq, Repr

/-- A `carousel_media[i]` dict.  For `video_versions`, a present key with
a `None` value behaves exactly like a present empty list (`if videos:`
fails, and the `elif` image branch is still skipped), so the two are
collapsed; `some []` covers both. -/
structure CarouselItem where
  video_versions : Option (List MediaVersion)
  image_versions2 : Option ImageVersions2
  id : Option Str
  accessibility_caption : Option Str
deriving DecidableEq, Repr

/-- A story/highlight `items[i]` dict (same collapse for
`video_versions` as in `CarouselItem`). -/
structure SubItem where
  video_versions : Option (List MediaVersion)
  image_versions2 : Option ImageVersions2
  pk : Option Str
  taken_at : Option Str
  accessibility_caption : Option Str
deriving DecidableEq, Repr

/-- One raw record (a post/reel, story or highlight dict — the code reads
whichever keys are present).  `caption` is doubly optional: the outer
layer is key presence, the inner layer is the truthiness check
`post['caption']` (a falsy value — `None` or `{}` — is `none`).  `title`
is doubly optional the same way except that no truthiness check is made:
`some none` is a present `title` key holding `None`. -/
structure RawRecord where
  product_type : Option Str
  owner : Option RawUser
  coauthor_producers : Option (List RawUser)
  pk : Option Str
  code : Option Str
  taken_at : Option Str
  caption : Option (Option RawCaption)
  usertags : Option (List RawTag)
  carousel_media : Option (List CarouselItem)
  image_versions2 : Option ImageVersions2
  video_versions : Option (List MediaVersion)
  id : Option Str
  user : Option RawUser
  title : Option (Option Str)
  items : Option (List SubItem)
deriving DecidableEq, Repr

/-- A record with every key absent, to build concrete records from. -/
def blankRecord : RawRecord :=
  ⟨none, none, none, none, none, none, none, none, none, none, none, none, none, none, none⟩

/-! ## Normalized output -/

/-- One entry of the output `owners` / `tagged_users` lists. -/
structure OwnerEntry where
  username : Option Str
  user_id : Option Str
deriving DecidableEq, Repr

/-- One entry of `media_files` as built by `_extract_media_file`
(downloader.py lines 414-438).  `url` holds `item.get('url')` (the
`isinstance(item, list)` arm is for a shape the extractor does not
produce and is outside the model).  The outer `Option` of `alt` / `id` /
`taken_at` is key presence: a key is added only when the call site passes
it in `additional_metadata`; the inner `Option` is its possibly-`None`
value. -/
structure MediaFile where
  url : Option Str
  type : Str
  filename : Str
  alt : Option (Option Str)
  id : Option (Option Str)
  taken_at : Option (Option Str)
deriving DecidableEq, Repr

/-- The `processed_metadata` dict.  The doubly-layered fields model
dynamically added keys: `id`/`shortcode`/`taken_at` appear only when the
source record has them, and `is_private`/`error` are set only by
`download_content` (outer `none` = key absent). -/
structure ProcessedMeta where
  content_type : Option Str
  owners : List OwnerEntry
  original_url : Str
  cleaned_url : Str
  caption : Option Str
  tagged_users : List OwnerEntry
  media_files : List MediaFile
  id : Option Str
  shortcode : Option Str
  taken_at : Option Str
  is_private : Option Bool
  error : Option Str
deriving DecidableEq, Repr

/-- The dict built at the top of `_process_metadata` (lines 262-270):
`content_type`, empty collections, the two URLs; no `id`/`shortcode`/
`taken_at`/`is_private`/`error` keys yet. -/
def initMeta (ctype : Str) (url : Str) : ProcessedMeta :=
  ⟨some ctype, [], url, clean_url url, none, [], [], none, none, none, none, none⟩

/-! ## Post/reel processing (`_process_post_or_reel_metadata`, lines 280-377) -/

/-- Python `s.split('_')[0]`: everything before the first `_` (the whole
string when there is no `_`). -/
def firstSeg (s : Str) : Str := s.takeWhile (fun c => c ≠ '_')

/-- `{'username': u.get('username'), 'user_id': u.get('id')}`. -/
def mkOwnerEntry (u : RawUser) : OwnerEntry := ⟨u.username, u.id⟩

/-- `str(KeyError('pk'))` — raised by `post['pk']` when the key is absent. -/
def keyErrorPk : Str := "'pk'".toList

/-- `str(AttributeError(...))` — raised by `None.split(...)` when an id
read with `.get` is `None`/absent. -/
def attrErrorSplit : Str := "'NoneType' object has no attribute 'split'".toList

/-- Media extraction for one carousel item (lines 331-356): the video
branch wins when the `video_versions` key is present (`elif`), a file is
appended only when the version list is non-empty, the filename is
`f"{post['pk']}_{m.get('id').split('_')[0]}.{ext}"` (so a missing `pk`
key raises `KeyError` and a missing item id raises `AttributeError`, in
that order), and only the image branch passes `alt`. -/
def carouselFile (pk : Option Str) (m : CarouselItem) : Except Str (List MediaFile) :=
  match m.video_versions with
  | some (v :: _) =>
    match pk with
    | none => .error keyErrorPk
    | some pkv =>
      match m.id with
      | none => .error attrErrorSplit
      | some i =>
        .ok [⟨v.url, "video".toList, pkv ++ '_' :: (firstSeg i ++ ".mp4".toList), none, none, none⟩]
  | some [] => .ok []
  | none =>
    match m.image_versions2 with
    | some iv =>
      match iv.candidates with
      | c :: _ =>
        match pk with
        | none => .error keyErrorPk
        | some pkv =>
          match m.id with
          | none => .error attrErrorSplit
          | some i =>
            .ok [⟨c.url, "image".toList, pkv ++ '_' :: (firstSeg i ++ ".jpg".toList),
                  some m.accessibility_caption, none, none⟩]
      | [] => .ok []
    | none => .ok []

/-- The `for m in post.get('carousel_media')` loop, preserving item order. -/
def carouselFiles (pk : Option Str) : List CarouselItem → Except Str (List MediaFile)
  | [] => .ok []
  | m :: rest =>
    match carouselFile pk m with
    | .error e => .error e
    | .ok fs =>
      match carouselFiles pk rest with
      | .error e => .error e
      | .ok fs' => .ok (fs ++ fs')

/-- The non-carousel branch (lines 357-377): the image block runs first,
then the video block — two independent `if`s, so a record with both keys
yields two files, image first.  Filenames use `post.get('id')`
(`AttributeError` when absent), and no `alt` is passed. -/
def flatFiles (r : RawRecord) : Except Str (List MediaFile) :=
  let imgs : Except Str (List MediaFile) :=
    match r.image_versions2 with
    | some iv =>
      match iv.candidates with
      | c :: _ =>
        match r.id with
        | none => .error attrErrorSplit
        | some i => .ok [⟨c.url, "image".toList, firstSeg i ++ ".jpg".toList, none, none, none⟩]
      | [] => .ok []
    | none => .ok []
  match imgs with
  | .error e => .error e
  | .ok l1 =>
    match r.video_versions with
    | some (v :: _) =>
      match r.id with
      | none => .error attrErrorSplit
      | some i => .ok (l1 ++ [⟨v.url, "video".toList, firstSeg i ++ ".mp4".toList, none, none, none⟩])
    | _ => .ok l1

/-- Lines 330-377: carousel expansion when the `carousel_media` key is
present, flat extraction otherwise. -/
def postMediaList (r : RawRecord) : Except Str (List MediaFile) :=
  match r.carousel_media with
  | some items => carouselFiles r.pk items
  | none => flatFiles r

/-- The value the caption is set to by lines 317-319, when it is set:
`post['caption'].get('text', '')` guarded by key presence and truthiness. -/
def postCaptionVal (r : RawRecord) : Option Str :=
  match r.caption with
  | some (some c) => some (c.text.getD [])
  | _ => none

/-- The net effect of one iteration of the `for post in self.metadata`
loop of `_process_post_or_reel_metadata` on the metadata dict.  Each
field records the corresponding block of lines 289-377; the record is a
dict, so the `isinstance` mock-guard is always in its dict arm.  The
Python loop mutates key by key and can raise from the media block; the
partially-mutated dict is never observed (on an escaping exception
`download_content` either replaces it wholesale or re-raises), so the
step is its net effect: either the raised error or the fully updated
dict. -/
def processPostStep (ctype : Str) (s : ProcessedMeta) (r : RawRecord) : Except Str ProcessedMeta :=
  match postMediaList r with
  | .error e => .error e
  | .ok media =>
    .ok ⟨
      -- line 290: 'reel' if post.get('product_type') == 'clips' else self.content_type
      some (if r.product_type = some ("clips".toList) then "reel".toList else ctype),
      -- lines 295-307: owner, then coauthor_producers, appended in order
      s.owners ++ (match r.owner with | some o => [mkOwnerEntry o] | none => [])
               ++ (r.coauthor_producers.getD []).map mkOwnerEntry,
      s.original_url, s.cleaned_url,
      -- lines 317-319
      (match postCaptionVal r with | some v => some v | none => s.caption),
      -- lines 321-328
      s.tagged_users ++ (r.usertags.getD []).map (fun t => mkOwnerEntry t.user),
      -- lines 330-377
      s.media_files ++ media,
      -- lines 310-316: keys overwritten only when present on the record
      (match r.pk with | some v => some v | none => s.id),
      (match r.code with | some v => some v | none => s.shortcode),
      (match r.taken_at with | some v => some v | none => s.taken_at),
      s.is_private, s.error⟩

/-- The `for post in self.metadata` loop. -/
def processPostLoop (ctype : Str) : ProcessedMeta → List RawRecord → Except Str ProcessedMeta
  | s, [] => .ok s
  | s, r :: rs =>
    match processPostStep ctype s r with
    | .error e => .error e
    | .ok s' => processPostLoop ctype s' rs

/-! ## Story and highlight processing (lines 440-536) -/

/-- Python `f"{x}"` for a value read with `.get`: `str(None)` is `"None"`. -/
def pyStr (o : Option Str) : Str := o.getD ("None".toList)

/-- Media extraction for one story/highlight item — identical in
`_process_story_metadata` (lines 453-483) and `_process_highlight_metadata`
(lines 505-536): video wins by `elif`, the filename is
`f"{item.get('pk')}.{ext}"`, `additional_metadata` adds the keys `id` and
`taken_at` (and `alt` in the image branch) with possibly-`None` values.
No branch can raise. -/
def itemFiles (it : SubItem) : List MediaFile :=
  match it.video_versions with
  | some (v :: _) => [⟨v.url, "video".toList, pyStr it.pk ++ ".mp4".toList, none, some it.pk, some it.taken_at⟩]
  | some [] => []
  | none =>
    match it.image_versions2 with
    | some iv =>
      match iv.candidates with
      | c :: _ => [⟨c.url, "image".toList, pyStr it.pk ++ ".jpg".toList,
                    some it.accessibility_caption, some it.pk, some it.taken_at⟩]
      | [] => []
    | none => []

/-- Flatten `items` in order. -/
def itemsFiles : List SubItem → List MediaFile
  | [] => []
  | it :: rest => itemFiles it ++ itemsFiles rest

/-- Net effect of one iteration of the `for stories in self.metadata` loop
of `_process_story_metadata` (lines 445-483): append the `user` owner and
the items' media.  Never raises, and never touches the caption. -/
def processStoryStep (s : ProcessedMeta) (r : RawRecord) : ProcessedMeta :=
  ⟨s.content_type,
   s.owners ++ (match r.user with | some u => [mkOwnerEntry u] | none => []),
   s.original_url, s.cleaned_url, s.caption, s.tagged_users,
   s.media_files ++ itemsFiles (r.items.getD []),
   s.id, s.shortcode, s.taken_at, s.is_private, s.error⟩

/-- The `for stories in self.metadata` loop. -/
def processStoryLoop : ProcessedMeta → List RawRecord → ProcessedMeta
  | s, [] => s
  | s, r :: rs => processStoryLoop (processStoryStep s r) rs

/-- `str(IndexError('list index out of range'))` — raised by
`highlight.get('id').split(':')[1]` when the id holds no `:`. -/
def indexErrorMsg : Str := "list index out of range".toList

/-- Python `s.split(':')[1]`: the text between the first and second `:`,
or `none` (an `IndexError`) when `s` holds no `:`. -/
def secondColonSeg (s : Str) : Option Str :=
  match splitAtChar ':' s with
  | some p => some (p.2.takeWhile (fun c => c ≠ ':'))
  | none => none

/-- Net effect of one iteration of the `for highlight in self.metadata`
loop of `_process_highlight_metadata` (lines 490-536): rewrite the `id`
key from `highlight.get('id').split(':')[1]` when an `id` key is present
(raising `IndexError` when it holds no colon — the only raise, and the
first statement of the iteration), append the `user` owner, set the
caption to the value of a present `title` key (even `None`), and append
the items' media. -/
def processHighlightStep (s : ProcessedMeta) (r : RawRecord) : Except Str ProcessedMeta :=
  let newId : Except Str (Option Str) :=
    match r.id with
    | some hid =>
      match secondColonSeg hid with
      | some seg => .ok (some seg)
      | none => .error indexErrorMsg
    | none => .ok s.id
  match newId with
  | .error e => .error e
  | .ok nid =>
    .ok ⟨s.content_type,
         s.owners ++ (match r.user with | some u => [mkOwnerEntry u] | none => []),
         s.original_url, s.cleaned_url,
         (match r.title with | some t => t | none => s.caption),
         s.tagged_users,
         s.media_files ++ itemsFiles (r.items.getD []),
         nid, s.shortcode, s.taken_at, s.is_private, s.error⟩

/-- The `for highlight in self.metadata` loop. -/
def processHighlightLoop : ProcessedMeta → List RawRecord → Except Str ProcessedMeta
  | s, [] => .ok s
  | s, r :: rs =>
    match processHighlightStep s r with
    | .error e => .error e
    | .ok s' => processHighlightLoop s' rs

/-- `_process_metadata` (lines 251-278): build the fresh dict and dispatch
on the recorded content type (any other value leaves the dict as built). -/
def processMetadata (ctype : Str) (url : Str) (recs : List RawRecord) : Except Str ProcessedMeta :=
  if ctype = "post".toList ∨ ctype = "reel".toList then
    processPostLoop ctype (initMeta ctype url) recs
  else if ctype = "highlight".toList ∨ ctype = "highlights".toList then
    processHighlightLoop (initMeta ctype url) recs
  else if ctype = "stories".toList then
    .ok (processStoryLoop (initMeta ctype url) recs)
  else .ok (initMeta ctype url)

/-! ## `download_content` (lines 104-218) -/

/-- Python `needle in hay` on strings (substring containment). -/
def hasSub (needle : Str) : Str → Bool
  | [] => needle.isEmpty
  | h :: t => needle.isPrefixOf (h :: t) || hasSub needle t

/-- Python `str.lower()` (the messages involved are ASCII). -/
def lowerStr (s : Str) : Str := s.map Char.toLower

/-- The private-content heuristic of lines 190-196: the four HTTP marker
strings are matched case-sensitively, `"not accessible"` and `"private"`
against the lowercased message. -/
def is_private_error (msg : Str) : Bool :=
  hasSub ("400 Bad Request".toList) msg ||
  hasSub ("401 Unauthorized".toList) msg ||
  hasSub ("403 Forbidden".toList) msg ||
  hasSub ("not accessible".toList) (lowerStr msg) ||
  hasSub ("private".toList) (lowerStr msg)

/-- The outcome of the gallery-dl calls inside the `try` block:
`raised msg` models `job.run()` / `job.extractor.posts()` raising an
exception with `str(e) = msg`; `fetched recs exc` models a successful
extraction returning the record list, with `exc` the truthy
`job.extractor.exception` attribute if there is one. -/
inductive Extraction where
  | raised : Str → Extraction
  | fetched : List RawRecord → Option Str → Extraction
deriving DecidableEq, Repr

/-- The error message of lines 144/157. -/
def privateMsg : Str := "Content is private or not accessible".toList

/-- The dict built for an empty record list (lines 148-158). -/
def privateEmptyMeta (ctype : Str) (url : Str) : ProcessedMeta :=
  ⟨some ctype, [], url, clean_url url, none, [], [], none, none, none, some true, some privateMsg⟩

/-- The dict built in the `except` handler (lines 199-209). -/
def errorCaseMeta (ctype : Str) (url : Str) (msg : Str) (priv : Bool) : ProcessedMeta :=
  ⟨some ctype, [], url, clean_url url, none, [], [], none, none, none, some priv, some msg⟩

/-- Lines 174-176: a truthy `extractor.exception` sets `is_private` to
`True` and overwrites `error` with its text. -/
def setPrivateTrue (s : ProcessedMeta) (msg : Str) : ProcessedMeta :=
  ⟨s.content_type, s.owners, s.original_url, s.cleaned_url, s.caption, s.tagged_users,
   s.media_files, s.id, s.shortcode, s.taken_at, some true, some msg⟩

/-- Lines 177-178: otherwise only `is_private = False` is set. -/
def setPrivateFalse (s : ProcessedMeta) : ProcessedMeta :=
  ⟨s.content_type, s.owners, s.original_url, s.cleaned_url, s.caption, s.tagged_users,
   s.media_files, s.id, s.shortcode, s.taken_at, some false, s.error⟩

/-- `InstagramDownloader.download_content` (lines 104-218), with the
gallery-dl interaction abstracted into an `Extraction` outcome.
`Except.error` models an exception escaping to the caller.  The
filesystem side effects (temp directory, thumbnail download,
`_process_media_files`, ffmpeg) read but never write
`processed_metadata`, so they do not appear.  An exception raised inside
`_process_metadata` is caught by the same `except` block and goes through
the same private-content filter. -/
def download_content (url : Str) (ext : Extraction) : Except Str ProcessedMeta :=
  match validate_instagram_url url with
  | none => .error ("Invalid Instagram URL: ".toList ++ url)
  | some ctype =>
    match ext with
    | .raised msg =>
      if is_private_error msg then .ok (errorCaseMeta ctype url msg true)
      else .error msg
    | .fetched recs exc =>
      if recs.isEmpty then .ok (privateEmptyMeta ctype url)
      else
        match processMetadata ctype url recs with
        | .error msg =>
          if is_private_error msg then .ok (errorCaseMeta ctype url msg true)
          else .error msg
        | .ok m =>
          .ok (match exc with
               | some emsg => setPrivateTrue m emsg
               | none => setPrivateFalse m)

/-! ## Theorems for the claims -/

/-- The post/reel category hypothesis shared by the normalizer claims. -/
def isPostOrReel (ctype : Str) : Prop := ctype = "post".toList ∨ ctype = "reel".toList

/-- Dispatching `_process_metadata` on a post/reel category runs the
post/reel loop. -/
theorem processMetadata_postreel (ctype url : Str) (recs : List RawRecord)
    (h : isPostOrReel ctype) :
    processMetadata ctype url recs = processPostLoop ctype (initMeta ctype url) recs := by
  unfold isPostOrReel at h
  unfold processMetadata
  rw [if_pos h]

/-- C1: the claim asserts that a flat (no-carousel) record holding both
`video_versions` and non-empty `image_versions2` candidates yields exactly
one media entry, a video.  The code's flat branch (lines 357-377) runs two
independent `if` blocks — image first, then video — so such a record
yields TWO entries.  This counterexample evaluates the normalizer on a
concrete such record: `media_files` has length 2 (not 1), image first. -/
theorem C1_counterexample :
    ∃ m, processMetadata ("post".toList) ("https://www.instagram.com/p/ABC123/".toList)
      [{ blankRecord with
          video_versions := some [⟨some ("https://example.com/v.mp4".toList)⟩],
          image_versions2 := some ⟨[⟨some ("https://example.com/i.jpg".toList)⟩]⟩,
          id := some ("123_456".toList) }] = .ok m ∧
      ¬ m.media_files.length = 1 ∧
      m.media_files.map (fun f => f.type) = ["image".toList, "video".toList] := by
  refine ⟨_, rfl, by decide, by decide⟩

/-- C1 (amended): a flat post/reel record with both `video_versions` and
non-empty image candidates (and an `id`, as the filenames require) yields
exactly two media entries in the order image then video — video does not
take precedence outside the carousel branch. -/
theorem C1_flat_record_both_media (ctype url : Str) (r : RawRecord)
    (v : MediaVersion) (vt : List MediaVersion) (c : MediaVersion) (ct : List MediaVersion)
    (i : Str) (hct : isPostOrReel ctype)
    (hcar : r.carousel_media = none)
    (hvid : r.video_versions = some (v :: vt))
    (himg : r.image_versions2 = some ⟨c :: ct⟩)
    (hid : r.id = some i) :
    ∃ m, processMetadata ctype url [r] = .ok m ∧
      m.media_files =
        [⟨c.url, "image".toList, firstSeg i ++ ".jpg".toList, none, none, none⟩,
         ⟨v.url, "video".toList, firstSeg i ++ ".mp4".toList, none, none, none⟩] := by
  rw [processMetadata_postreel _ _ _ hct]
  simp only [processPostLoop, processPostStep, postMediaList, hcar, flatFiles, himg, hvid, hid]
  exact ⟨_, rfl, rfl⟩

/-- C1 amended witness: the amended statement at the concrete record of
the counterexample. -/
theorem C1_flat_record_both_media_witness :
    ∃ m, processMetadata ("post".toList) ("https://www.instagram.com/p/ABC123/".toList)
      [{ blankRecord with
          video_versions := some [⟨some ("https://example.com/v.mp4".toList)⟩],
          image_versions2 := some ⟨[⟨some ("https://example.com/i.jpg".toList)⟩]⟩,
          id := some ("123_456".toList) }] = .ok m ∧
      m.media_files =
        [⟨some ("https://example.com/i.jpg".toList), "image".toList, "123.jpg".toList, none, none, none⟩,
         ⟨some ("https://example.com/v.mp4".toList), "video".toList, "123.mp4".toList, none, none, none⟩] := by
  have h := C1_flat_record_both_media ("post".toList)
    ("https://www.instagram.com/p/ABC123/".toList)
    { blankRecord with
        video_versions := some [⟨some ("https://example.com/v.mp4".toList)⟩],
        image_versions2 := some ⟨[⟨some ("https://example.com/i.jpg".toList)⟩]⟩,
        id := some ("123_456".toList) }
    ⟨some ("https://example.com/v.mp4".toList)⟩ []
    ⟨some ("https://example.com/i.jpg".toList)⟩ []
    ("123_456".toList) (Or.inl rfl) rfl rfl rfl rfl
  exact h

/-- C5: a carousel post with two items — first a video item, second an
image item — yields exactly two media files in carousel order, the
filenames being `{parent pk}_{first '_'-segment of the item id}.{ext}`
with `.mp4` for the video and `.jpg` for the image. -/
theorem C5_carousel_order_and_filenames (ctype url : Str) (r : RawRecord)
    (m1 m2 : CarouselItem) (pk : Str)
    (v : MediaVersion) (vt : List MediaVersion) (i1 : Str)
    (c : MediaVersion) (ct : List MediaVersion) (i2 : Str)
    (hct : isPostOrReel ctype)
    (hcar : r.carousel_media = some [m1, m2])
    (hpk : r.pk = some pk)
    (h1v : m1.video_versions = some (v :: vt))
    (h1i : m1.id = some i1)
    (h2v : m2.video_versions = none)
    (h2i : m2.image_versions2 = some ⟨c :: ct⟩)
    (h2id : m2.id = some i2) :
    ∃ m, processMetadata ctype url [r] = .ok m ∧
      m.media_files =
        [⟨v.url, "video".toList, pk ++ '_' :: (firstSeg i1 ++ ".mp4".toList), none, none, none⟩,
         ⟨c.url, "image".toList, pk ++ '_' :: (firstSeg i2 ++ ".jpg".toList),
          some m2.accessibility_caption, none, none⟩] := by
  rw [processMetadata_postreel _ _ _ hct]
  simp only [processPostLoop, processPostStep, postMediaList, hcar, hpk, carouselFiles,
    carouselFile, h1v, h1i, h2v, h2i, h2id]
  exact ⟨_, rfl, rfl⟩

/-- C5 witness: the statement at a concrete two-item carousel record. -/
theorem C5_carousel_order_and_filenames_witness :
    ∃ m, processMetadata ("post".toList) ("https://www.instagram.com/p/C5/".toList)
      [{ blankRecord with
          pk := some ("777".toList),
          carousel_media := some
            [⟨some [⟨some ("https://example.com/v.mp4".toList)⟩], none, some ("10_1".toList), none⟩,
             ⟨none, some ⟨[⟨some ("https://example.com/i.jpg".toList)⟩]⟩, some ("20_2".toList),
              some ("a photo".toList)⟩] }] = .ok m ∧
      m.media_files =
        [⟨some ("https://example.com/v.mp4".toList), "video".toList, "777_10.mp4".toList, none, none, none⟩,
         ⟨some ("https://example.com/i.jpg".toList), "image".toList, "777_20.jpg".toList,
          some (some ("a photo".toList)), none, none⟩] := by
  have h := C5_carousel_order_and_filenames ("post".toList)
    ("https://www.instagram.com/p/C5/".toList)
    { blankRecord with
        pk := some ("777".toList),
        carousel_media := some
          [⟨some [⟨some ("https://example.com/v.mp4".toList)⟩], none, some ("10_1".toList), none⟩,
           ⟨none, some ⟨[⟨some ("https://example.com/i.jpg".toList)⟩]⟩, some ("20_2".toList),
            some ("a photo".toList)⟩] }
    ⟨some [⟨some ("https://example.com/v.mp4".toList)⟩], none, some ("10_1".toList), none⟩
    ⟨none, some ⟨[⟨some ("https://example.com/i.jpg".toList)⟩]⟩, some ("20_2".toList),
     some ("a photo".toList)⟩
    ("777".toList)
    ⟨some ("https://example.com/v.mp4".toList)⟩ [] ("10_1".toList)
    ⟨some ("https://example.com/i.jpg".toList)⟩ [] ("20_2".toList)
    (Or.inl rfl) rfl rfl rfl rfl rfl rfl rfl
  exact h

/-- C7: normalizing a single flat post record with one `owner`, one
`coauthor_producers` entry, a caption with text, one `usertags.in` entry,
and one image candidate (no carousel, no video) yields two owners with the
primary owner first, the source caption text, one tagged user, and one
image media file. -/
theorem C7_single_post_fields (ctype url : Str) (r : RawRecord)
    (o co : RawUser) (txt : Str) (tu : RawUser) (c : MediaVersion) (i : Str)
    (hct : isPostOrReel ctype)
    (hown : r.owner = some o)
    (hco : r.coauthor_producers = some [co])
    (hcap : r.caption = some (some ⟨some txt⟩))
    (htag : r.usertags = some [⟨tu⟩])
    (hcar : r.carousel_media = none)
    (himg : r.image_versions2 = some ⟨[c]⟩)
    (hvid : r.video_versions = none)
    (hid : r.id = some i) :
    ∃ m, processMetadata ctype url [r] = .ok m ∧
      m.owners = [mkOwnerEntry o, mkOwnerEntry co] ∧
      m.caption = some txt ∧
      m.tagged_users = [mkOwnerEntry tu] ∧
      m.media_files = [⟨c.url, "image".toList, firstSeg i ++ ".jpg".toList, none, none, none⟩] := by
  rw [processMetadata_postreel _ _ _ hct]
  simp only [processPostLoop, processPostStep, postMediaList, hcar, flatFiles, himg, hvid, hid,
    postCaptionVal, hcap, hown, hco, htag, initMeta, Option.getD_some, List.map_cons, List.map_nil]
  exact ⟨_, rfl, rfl, rfl, rfl, rfl⟩

/-- C7 witness: the statement at the concrete record used by the
repository's own `test_download_content_post` fixture. -/
theorem C7_single_post_fields_witness :
    ∃ m, processMetadata ("post".toList) ("https://www.instagram.com/p/ABC123/".toList)
      [{ blankRecord with
          owner := some ⟨some ("test_user".toList), some ("12345".toList)⟩,
          coauthor_producers := some [⟨some ("co_user".toList), some ("54321".toList)⟩],
          caption := some (some ⟨some ("Test caption".toList)⟩),
          usertags := some [⟨⟨some ("tagged_user".toList), some ("67890".toList)⟩⟩],
          image_versions2 := some ⟨[⟨some ("https://example.com/image.jpg".toList)⟩]⟩,
          id := some ("post123_456".toList) }] = .ok m ∧
      m.owners = [⟨some ("test_user".toList), some ("12345".toList)⟩,
                  ⟨some ("co_user".toList), some ("54321".toList)⟩] ∧
      m.caption = some ("Test caption".toList) ∧
      m.tagged_users = [⟨some ("tagged_user".toList), some ("67890".toList)⟩] ∧
      m.media_files = [⟨some ("https://example.com/image.jpg".toList), "image".toList,
                       "post123.jpg".toList, none, none, none⟩] := by
  have h := C7_single_post_fields ("post".toList) ("https://www.instagram.com/p/ABC123/".toList)
    { blankRecord with
        owner := some ⟨some ("test_user".toList), some ("12345".toList)⟩,
        coauthor_producers := some [⟨some ("co_user".toList), some ("54321".toList)⟩],
        caption := some (some ⟨some ("Test caption".toList)⟩),
        usertags := some [⟨⟨some ("tagged_user".toList), some ("67890".toList)⟩⟩],
        image_versions2 := some ⟨[⟨some ("https://example.com/image.jpg".toList)⟩]⟩,
        id := some ("post123_456".toList) }
    ⟨some ("test_user".toList), some ("12345".toList)⟩
    ⟨some ("co_user".toList), some ("54321".toList)⟩
    ("Test caption".toList)
    ⟨some ("tagged_user".toList), some ("67890".toList)⟩
    ⟨some ("https://example.com/image.jpg".toList)⟩
    ("post123_456".toList)
    (Or.inl rfl) rfl rfl rfl rfl rfl rfl rfl rfl
  exact h

/-- C8: for a record reached through a post-classified URL, a raw
`product_type` equal to `'clips'` makes the normalized `content_type`
`'reel'`; any other (or absent) `product_type` leaves it at the
URL-detected `'post'`. -/
theorem C8_clips_reclassification (u url : Str) (r : RawRecord) (m : ProcessedMeta)
    (_hv : validate_instagram_url u = some ("post".toList))
    (hp : processMetadata ("post".toList) url [r] = .ok m) :
    (r.product_type = some ("clips".toList) → m.content_type = some ("reel".toList)) ∧
    (r.product_type ≠ some ("clips".toList) → m.content_type = some ("post".toList)) := by
  rw [processMetadata_postreel _ _ _ (Or.inl rfl)] at hp
  simp only [processPostLoop, processPostStep] at hp
  rcases hmedia : postMediaList r with e | media
  · rw [hmedia] at hp; cases hp
  · rw [hmedia] at hp
    cases hp
    constructor
    · intro hclips
      simp only [if_pos hclips]
    · intro hclips
      simp only [if_neg hclips]

/-- C8 witness: both directions at concrete records through a concrete
post URL. -/
theorem C8_clips_reclassification_witness :
    (∃ m, processMetadata ("post".toList) ("https://www.instagram.com/p/ABC123/".toList)
        [{ blankRecord with product_type := some ("clips".toList) }] = .ok m ∧
      m.content_type = some ("reel".toList)) ∧
    (∃ m, processMetadata ("post".toList) ("https://www.instagram.com/p/ABC123/".toList)
        [blankRecord] = .ok m ∧
      m.content_type = some ("post".toList)) := by
  constructor
  · refine ⟨_, rfl, ?_⟩
    exact (C8_clips_reclassification ("https://www.instagram.com/p/ABC123/".toList)
      ("https://www.instagram.com/p/ABC123/".toList)
      { blankRecord with product_type := some ("clips".toList) } _ (by decide) rfl).1 rfl
  · refine ⟨_, rfl, ?_⟩
    exact (C8_clips_reclassification ("https://www.instagram.com/p/ABC123/".toList)
      ("https://www.instagram.com/p/ABC123/".toList)
      blankRecord _ (by decide) rfl).2 (by decide)

/-- `hasSub` decides substring containment. -/
theorem hasSub_iff (n : Str) : ∀ (h : Str), hasSub n h = true ↔ n <:+: h := by
  intro h
  induction h with
  | nil =>
    simp only [hasSub, List.isEmpty_iff, List.infix_nil]
  | cons x t ih =>
    simp only [hasSub, Bool.or_eq_true, ih, List.isPrefixOf_iff_prefix,
      List.infix_cons_iff]

/-- Substring containment is preserved by `str.lower()`. -/
theorem hasSub_lower (n h : Str) (hfix : lowerStr n = n) (hsub : hasSub n h = true) :
    hasSub n (lowerStr h) = true := by
  rw [hasSub_iff] at hsub ⊢
  have := List.IsInfix.map Char.toLower hsub
  rwa [show (List.map Char.toLower n) = lowerStr n from rfl, hfix] at this

/-- C3: when the extraction call raises an error whose message contains
one of the private-content markers (`'403 Forbidden'`, `'400 Bad Request'`,
`'401 Unauthorized'`, `'not accessible'`, `'private'`), `download_content`
swallows the error and returns a record with `is_private = True` whose
`error` field is the message; when the message matches none of the
markers of the heuristic (e.g. `'Disk full'`), the error propagates to the
caller. -/
theorem C3_private_error_filter (u ct msg : Str)
    (hv : validate_instagram_url u = some ct) :
    ((hasSub ("403 Forbidden".toList) msg = true ∨
      hasSub ("400 Bad Request".toList) msg = true ∨
      hasSub ("401 Unauthorized".toList) msg = true ∨
      hasSub ("not accessible".toList) msg = true ∨
      hasSub ("private".toList) msg = true) →
      ∃ m, download_content u (.raised msg) = .ok m ∧
        m.is_private = some true ∧ m.error = some msg) ∧
    (is_private_error msg = false →
      download_content u (.raised msg) = .error msg) := by
  constructor
  · intro hmark
    have hpriv : is_private_error msg = true := by
      unfold is_private_error
      simp only [Bool.or_eq_true]
      rcases hmark with h | h | h | h | h
      · exact Or.inl (Or.inl (Or.inr h))
      · exact Or.inl (Or.inl (Or.inl (Or.inl h)))
      · exact Or.inl (Or.inl (Or.inl (Or.inr h)))
      · exact Or.inl (Or.inr (hasSub_lower _ _ (by decide) h))
      · exact Or.inr (hasSub_lower _ _ (by decide) h)
    refine ⟨errorCaseMeta ct u msg true, ?_, rfl, rfl⟩
    simp only [download_content, hv]
    rw [if_pos hpriv]
  · intro hfalse
    simp only [download_content, hv]
    rw [if_neg (by simp [hfalse])]

/-- C3 witness: a `403 Forbidden` message is swallowed into an
`is_private` record, and a `Disk full` message propagates, at a concrete
post URL. -/
theorem C3_private_error_filter_witness :
    (∃ m, download_content ("https://www.instagram.com/p/ABC123/".toList)
        (.raised ("HTTP Error 403 Forbidden".toList)) = .ok m ∧
      m.is_private = some true ∧ m.error = some ("HTTP Error 403 Forbidden".toList)) ∧
    download_content ("https://www.instagram.com/p/ABC123/".toList)
        (.raised ("Disk full".toList)) = .error ("Disk full".toList) := by
  constructor
  · exact (C3_private_error_filter ("https://www.instagram.com/p/ABC123/".toList)
      ("post".toList) ("HTTP Error 403 Forbidden".toList) (by decide)).1 (Or.inl (by decide))
  · exact (C3_private_error_filter ("https://www.instagram.com/p/ABC123/".toList)
      ("post".toList) ("Disk full".toList) (by decide)).2 (by decide)

/-- C4: when the extraction call yields an empty record list on a valid
URL, `download_content` returns (without raising) a record with
`is_private = True`, empty owners/tagged/media, a `None` caption, and a
non-null error string. -/
theorem C4_empty_posts_private (u ct : Str) (exc : Option Str)
    (hv : validate_instagram_url u = some ct) :
    ∃ m, download_content u (.fetched [] exc) = .ok m ∧
      m.is_private = some true ∧ m.owners = [] ∧ m.tagged_users = [] ∧
      m.media_files = [] ∧ m.caption = none ∧
      m.error = some ("Content is private or not accessible".toList) := by
  refine ⟨privateEmptyMeta ct u, ?_, rfl, rfl, rfl, rfl, rfl, rfl⟩
  simp only [download_content, hv, List.isEmpty_nil, if_true]

/-- C4 witness: the statement at a concrete post URL. -/
theorem C4_empty_posts_private_witness :
    ∃ m, download_content ("https://www.instagram.com/p/ABC123/".toList)
        (.fetched [] none) = .ok m ∧
      m.is_private = some true ∧ m.owners = [] ∧ m.tagged_users = [] ∧
      m.media_files = [] ∧ m.caption = none ∧
      m.error = some ("Content is private or not accessible".toList) :=
  C4_empty_posts_private ("https://www.instagram.com/p/ABC123/".toList)
    ("post".toList) none (by decide)

/-- C2: the claim asserts that every `download_content` result with
`is_private = True` has empty content fields.  The code has a third
`is_private = True` path (lines 174-176): when extraction succeeds with
records but the extractor carries a truthy `exception` attribute, the
already-populated metadata is kept and only `is_private`/`error` are
overwritten.  This counterexample evaluates that path on a record with an
owner: the result has `is_private = some true` and a non-empty `owners`
list. -/
theorem C2_counterexample :
    ∃ m, download_content ("https://www.instagram.com/p/ABC123/".toList)
      (.fetched [{ blankRecord with
          owner := some ⟨some ("test_user".toList), some ("12345".toList)⟩ }]
        (some ("simulated extractor exception".toList))) = .ok m ∧
      m.is_private = some true ∧ ¬ m.owners = [] := by
  refine ⟨_, rfl, by decide, by decide⟩

/-- C2 (amended): for every extraction outcome that does not carry a
truthy `extractor.exception` attribute alongside fetched records, a
result with `is_private = True` has all content fields empty/default
(owners, caption, tagged_users, media_files); the extractor-exception
path is the one exception, where populated fields are kept. -/
theorem C2_private_implies_empty (u : Str) (ext : Extraction) (m : ProcessedMeta)
    (hnoexc : ∀ recs emsg, ext ≠ Extraction.fetched recs (some emsg))
    (hdc : download_content u ext = .ok m)
    (hpriv : m.is_private = some true) :
    m.owners = [] ∧ m.caption = none ∧ m.tagged_users = [] ∧ m.media_files = [] := by
  rcases hval : validate_instagram_url u with _ | ct
  · simp only [download_content, hval] at hdc
    cases hdc
  · cases ext with
    | raised msg =>
      simp only [download_content, hval] at hdc
      by_cases hp : is_private_error msg = true
      · rw [if_pos hp] at hdc
        cases hdc
        exact ⟨rfl, rfl, rfl, rfl⟩
      · rw [if_neg hp] at hdc; cases hdc
    | fetched recs exc =>
      cases exc with
      | some emsg => exact absurd rfl (hnoexc recs emsg)
      | none =>
        simp only [download_content, hval] at hdc
        by_cases hemp : recs.isEmpty = true
        · rw [if_pos hemp] at hdc
          cases hdc
          exact ⟨rfl, rfl, rfl, rfl⟩
        · rw [if_neg hemp] at hdc
          rcases hproc : processMetadata ct u recs with e | m'
          · simp only [hproc] at hdc
            by_cases hp : is_private_error e = true
            · rw [if_pos hp] at hdc
              cases hdc
              exact ⟨rfl, rfl, rfl, rfl⟩
            · rw [if_neg hp] at hdc; cases hdc
          · simp only [hproc] at hdc
            cases hdc
            cases hpriv

/-- C2 amended witness: the amended statement applied on the
caught-403 path at a concrete URL. -/
theorem C2_private_implies_empty_witness :
    (errorCaseMeta ("post".toList) ("https://www.instagram.com/p/ABC123/".toList)
      ("HTTP Error 403 Forbidden".toList) true).owners = [] ∧
    (errorCaseMeta ("post".toList) ("https://www.instagram.com/p/ABC123/".toList)
      ("HTTP Error 403 Forbidden".toList) true).caption = none ∧
    (errorCaseMeta ("post".toList) ("https://www.instagram.com/p/ABC123/".toList)
      ("HTTP Error 403 Forbidden".toList) true).tagged_users = [] ∧
    (errorCaseMeta ("post".toList) ("https://www.instagram.com/p/ABC123/".toList)
      ("HTTP Error 403 Forbidden".toList) true).media_files = [] :=
  C2_private_implies_empty ("https://www.instagram.com/p/ABC123/".toList)
    (.raised ("HTTP Error 403 Forbidden".toList)) _
    (fun _ _ h => by cases h) rfl rfl

theorem getLast?_cons_or {α : Type} (v : α) (l : List α) :
    (v :: l).getLast? = l.getLast?.or (some v) := by
  have h := @List.getLast?_append _ [v] l
  simpa using h

/-- The caption after the post/reel loop is the last value set (each
record with a present, truthy `caption` key overwrites), falling back to
the caption the loop started from. -/
theorem postLoop_caption (ct : Str) : ∀ (recs : List RawRecord) (s m : ProcessedMeta),
    processPostLoop ct s recs = .ok m →
    m.caption = ((recs.filterMap postCaptionVal).getLast?).or s.caption := by
  intro recs
  induction recs with
  | nil =>
    intro s m hloop
    cases hloop
    simp
  | cons r rs ih =>
    intro s m hloop
    unfold processPostLoop at hloop
    rcases hstep : processPostStep ct s r with e | s'
    · rw [hstep] at hloop; cases hloop
    · rw [hstep] at hloop
      have hcap : s'.caption = (postCaptionVal r).or s.caption := by
        unfold processPostStep at hstep
        rcases hm : postMediaList r with e | media
        · rw [hm] at hstep; cases hstep
        · rw [hm] at hstep
          cases hstep
          cases postCaptionVal r <;> rfl
      rw [ih s' m hloop, hcap, List.filterMap_cons]
      cases hpc : postCaptionVal r
      · rfl
      · rw [getLast?_cons_or, Option.or_assoc, Option.or_some]

/-- The caption after the highlight loop is the value of the last present
`title` key (possibly `None`), falling back to the caption the loop
started from. -/
theorem highlightLoop_caption : ∀ (recs : List RawRecord) (s m : ProcessedMeta),
    processHighlightLoop s recs = .ok m →
    m.caption = ((recs.filterMap (fun r => r.title)).getLast?).getD s.caption := by
  intro recs
  induction recs with
  | nil =>
    intro s m hloop
    cases hloop
    simp
  | cons r rs ih =>
    intro s m hloop
    unfold processHighlightLoop at hloop
    rcases hstep : processHighlightStep s r with e | s'
    · rw [hstep] at hloop; cases hloop
    · rw [hstep] at hloop
      have hcap : s'.caption = (r.title).getD s.caption := by
        unfold processHighlightStep at hstep
        rcases hid : r.id with _ | hid_v
        · simp only [hid] at hstep
          cases hstep
          cases r.title <;> rfl
        · simp only [hid] at hstep
          rcases hseg : secondColonSeg hid_v with _ | seg
          · simp only [hseg] at hstep; cases hstep
          · simp only [hseg] at hstep
            cases hstep
            cases r.title <;> rfl
      rw [ih s' m hloop, hcap, List.filterMap_cons]
      cases ht : r.title
      · rfl
      · rw [getLast?_cons_or]
        rcases hx : (List.filterMap (fun r => r.title) rs).getLast? with _ | w <;> simp [hx]

/-- The story loop never touches the caption. -/
theorem storyLoop_caption : ∀ (recs : List RawRecord) (s : ProcessedMeta),
    (processStoryLoop s recs).caption = s.caption := by
  intro recs
  induction recs with
  | nil => intro s; rfl
  | cons r rs ih => intro s; exact ih (processStoryStep s r)

/-- C9 (amended): the output caption is the LAST caption value set while
walking the record list — for post/reel records, the last present truthy
`caption.text` (later records overwrite earlier ones); for highlight
records, the value of the last present `title` key; story records never
set a caption.  (The original claim said the FIRST non-empty value wins;
the assignments at lines 317-319 and 501-502 overwrite instead.) -/
theorem C9_caption_last_wins :
    (∀ (ct url : Str) (recs : List RawRecord) (m : ProcessedMeta),
       processPostLoop ct (initMeta ct url) recs = .ok m →
       m.caption = (recs.filterMap postCaptionVal).getLast?) ∧
    (∀ (ct url : Str) (recs : List RawRecord) (m : ProcessedMeta),
       processHighlightLoop (initMeta ct url) recs = .ok m →
       m.caption = ((recs.filterMap (fun r => r.title)).getLast?).join) ∧
    (∀ (ct url : Str) (recs : List RawRecord),
       (processStoryLoop (initMeta ct url) recs).caption = none) := by
  refine ⟨?_, ?_, ?_⟩
  · intro ct url recs m hloop
    rw [postLoop_caption ct recs _ m hloop]
    simp [initMeta]
  · intro ct url recs m hloop
    rw [highlightLoop_caption recs _ m hloop]
    rcases hx : (recs.filterMap (fun r => r.title)).getLast? with _ | t <;>
      simp [hx, initMeta]
  · intro ct url recs
    rw [storyLoop_caption recs _]
    rfl

/-- C9 counterexample: with two post records captioned `"A"` then `"B"`,
the normalizer reports `"B"` (the last), not `"A"` (the first non-empty,
as the claim states). -/
theorem C9_counterexample :
    ∃ m, processMetadata ("post".toList) ("https://www.instagram.com/p/ABC123/".toList)
      [{ blankRecord with caption := some (some ⟨some ("A".toList)⟩) },
       { blankRecord with caption := some (some ⟨some ("B".toList)⟩) }] = .ok m ∧
      m.caption = some ("B".toList) ∧ ¬ m.caption = some ("A".toList) := by
  refine ⟨_, rfl, by decide, by decide⟩

/-- C9 amended witness: the post/reel part of the amended statement at the
two-record list of the counterexample. -/
theorem C9_caption_last_wins_witness :
    ∃ m, processPostLoop ("post".toList)
        (initMeta ("post".toList) ("https://www.instagram.com/p/ABC123/".toList))
        [{ blankRecord with caption := some (some ⟨some ("A".toList)⟩) },
         { blankRecord with caption := some (some ⟨some ("B".toList)⟩) }] = .ok m ∧
      m.caption = ([{ blankRecord with caption := some (some ⟨some ("A".toList)⟩) },
                    { blankRecord with caption := some (some ⟨some ("B".toList)⟩) }].filterMap
                     postCaptionVal).getLast? :=
  ⟨_, rfl, C9_caption_last_wins.1 ("post".toList)
    ("https://www.instagram.com/p/ABC123/".toList) _ _ rfl⟩

/-- A successful `dropLit` decomposes the string. -/
theorem dropLit_eq_some : ∀ (lit s r : Str), dropLit lit s = some r → s = lit ++ r := by
  intro lit
  induction lit with
  | nil =>
    intro s r h
    cases h
    rfl
  | cons l ls ih =>
    intro s r h
    cases s with
    | nil => cases h
    | cons x xs =>
      unfold dropLit at h
      by_cases hx : x = l
      · rw [if_pos hx] at h
        rw [hx, List.cons_append]
        exact congrArg _ (ih xs r h)
      · rw [if_neg hx] at h
        cases h

/-- C10: a URL matching the `highlights` pattern
(`instagram.com/stories/highlights/⟨id⟩`) also matches the more general
`stories` pattern, and classification returns `highlights`: the patterns
are tried in the fixed dictionary order post, reel, highlight, highlights,
stories, and the first match wins (the three categories before
`highlights` cannot match such a URL). -/
theorem C10_highlights_before_stories (u : Str)
    (h1 : matchPattern ("instagram.com/stories/highlights/".toList) u = true)
    (_h2 : matchPattern ("instagram.com/stories/".toList) u = true) :
    validate_instagram_url u = some ("highlights".toList) := by
  rcases hd : dropLit ("instagram.com/stories/highlights/".toList) (stripSchemeWww u)
    with _ | rest
  · unfold matchPattern at h1
    rw [hd] at h1
    cases h1
  · have hs : stripSchemeWww u = "instagram.com/stories/highlights/".toList ++ rest :=
      dropLit_eq_some _ _ _ hd
    cases rest with
    | nil =>
      unfold matchPattern at h1
      rw [hd] at h1
      cases h1
    | cons c cs =>
      have hpost : matchPattern ("instagram.com/p/".toList) u = false := by
        unfold matchPattern
        rw [hs]
        rfl
      have hreel : matchPattern ("instagram.com/reel/".toList) u = false := by
        unfold matchPattern
        rw [hs]
        rfl
      have hhl : matchPattern ("instagram.com/s/aGlnaGxpZ2h0".toList) u = false := by
        unfold matchPattern
        rw [hs]
        rfl
      unfold validate_instagram_url
      rw [hpost, hreel, hhl, h1]
      rfl

/-- C10 witness: the statement at the concrete URL of the repository's
unit test for the `highlights` category. -/
theorem C10_highlights_before_stories_witness :
    validate_instagram_url ("https://www.instagram.com/stories/highlights/123456789/".toList)
      = some ("highlights".toList) :=
  C10_highlights_before_stories
    ("https://www.instagram.com/stories/highlights/123456789/".toList)
    (by decide) (by decide)

/-! ### Helper lemmas for the `clean_url` idempotence analysis -/

theorem splitAtChar_not_mem (c : Char) : ∀ (s : Str), c ∉ s → splitAtChar c s = none := by
  intro s
  induction s with
  | nil => intro _; rfl
  | cons x xs ih =>
    intro hmem
    unfold splitAtChar
    rw [if_neg (show ¬ x = c from fun hx => hmem (List.mem_cons.mpr (Or.inl hx.symm))),
      ih (fun hx => hmem (List.mem_cons_of_mem x hx))]
    rfl

theorem splitAtChar_first (c : Char) : ∀ (a b : Str), c ∉ a →
    splitAtChar c (a ++ c :: b) = some (a, b) := by
  intro a
  induction a with
  | nil =>
    intro b _
    simp [splitAtChar]
  | cons x xs ih =>
    intro b hmem
    rw [List.cons_append]
    unfold splitAtChar
    rw [if_neg (show ¬ x = c from fun hx => hmem (List.mem_cons.mpr (Or.inl hx.symm))),
      ih b (fun hx => hmem (List.mem_cons_of_mem x hx))]
    rfl

theorem takeWhile_append_all (p : Char → Bool) : ∀ (a b : Str), (∀ x ∈ a, p x = true) →
    (a ++ b).takeWhile p = a ++ b.takeWhile p := by
  intro a
  induction a with
  | nil => intro b _; rfl
  | cons x xs ih =>
    intro b hall
    rw [List.cons_append, List.takeWhile_cons,
      if_pos (hall x (List.mem_cons_self x xs)),
      ih b (fun y hy => hall y (List.mem_cons_of_mem x hy)), List.cons_append]

theorem dropWhile_append_all (p : Char → Bool) : ∀ (a b : Str), (∀ x ∈ a, p x = true) →
    (a ++ b).dropWhile p = b.dropWhile p := by
  intro a
  induction a with
  | nil => intro b _; rfl
  | cons x xs ih =>
    intro b hall
    rw [List.cons_append, List.dropWhile_cons,
      if_pos (hall x (List.mem_cons_self x xs)),
      ih b (fun y hy => hall y (List.mem_cons_of_mem x hy))]

theorem splitLastSlash_eq_some : ∀ (s p q : Str), splitLastSlash s = some (p, q) →
    s = p ++ '/' :: q := by
  intro s
  induction s with
  | nil => intro p q h; cases h
  | cons x xs ih =>
    intro p q h
    unfold splitLastSlash at h
    rcases hrec : splitLastSlash xs with _ | pq
    · rw [hrec] at h
      by_cases hx : x = '/'
      · rw [if_pos hx] at h
        cases h
        rw [hx]
        rfl
      · rw [if_neg hx] at h
        cases h
    · rw [hrec] at h
      cases h
      rw [List.cons_append]
      exact congrArg _ (ih pq.1 pq.2 (by rw [hrec]))

theorem splitParams_no_semi (s : Str) (h : ';' ∉ s) : splitParams s = (s, []) := by
  unfold splitParams
  rcases hls : splitLastSlash s with _ | pq
  · simp only [splitAtChar_not_mem ';' s h]
  · have hdec := splitLastSlash_eq_some s pq.1 pq.2 (by rw [hls])
    have hq : ';' ∉ pq.2 := by
      intro hmem
      exact h (hdec.symm ▸ List.mem_append_right _ (List.mem_cons_of_mem _ hmem))
    simp only [splitAtChar_not_mem ';' pq.2 hq]

theorem alpha_not_ctrl (c : Char) (h : c.isAlpha = true) : ctrlOrSpace c = false := by
  unfold ctrlOrSpace
  simp only [Char.isAlpha, Char.isUpper, Char.isLower, Bool.or_eq_true, Bool.and_eq_true,
    decide_eq_true_eq] at h
  simp only [decide_eq_false_iff_not]
  intro hle
  have hle2 : c.val ≤ ' '.val := hle
  rcases h with ⟨h1, _⟩ | ⟨h1, _⟩
  · exact absurd (UInt32.le_trans h1 hle2) (by decide)
  · exact absurd (UInt32.le_trans h1 hle2) (by decide)

theorem tabCrLf_of_mem (c : Char) (h : tabCrLf c = true) :
    c = '\t' ∨ c = '\r' ∨ c = '\n' := by
  simp only [tabCrLf, Bool.or_eq_true, decide_eq_true_eq] at h
  rcases h with (h1 | h1) | h1
  exacts [Or.inl h1, Or.inr (Or.inl h1), Or.inr (Or.inr h1)]

theorem alpha_not_tab (c : Char) (h : c.isAlpha = true) : tabCrLf c = false := by
  cases htc : tabCrLf c with
  | false => rfl
  | true =>
    rcases tabCrLf_of_mem c htc with h1 | h1 | h1 <;> rw [h1] at h <;> exact absurd h (by decide)

theorem schemeChar_not_tab (c : Char) (h : isSchemeChar c = true) : tabCrLf c = false := by
  cases htc : tabCrLf c with
  | false => rfl
  | true =>
    rcases tabCrLf_of_mem c htc with h1 | h1 | h1 <;> rw [h1] at h <;> exact absurd h (by decide)

theorem mem_stripSlash (a : Char) (p : Str) (h : a ∈ stripSlash p) : a ∈ p := by
  unfold stripSlash at h
  by_cases hp : p.getLast? = some '/'
  · rw [if_pos hp] at h
    exact List.dropLast_subset p h
  · rwa [if_neg hp] at h

/-- Parsing a rebuilt URL `scheme://netloc ++ q` of the shape `clean_url`
produces: the scheme is recovered unchanged, the netloc extends up to the
first `/?#` inside `q`, the rest of `q` is the path, and params, query
and fragment are empty. -/
theorem urlparse_canonical (c : Char) (cs N q : Str)
    (h2 : c.isAlpha = true) (h3 : cs.all isSchemeChar = true)
    (h4 : (c :: cs).map Char.toLower = c :: cs)
    (hN : ∀ ch ∈ N, netDelim ch = false ∧ tabCrLf ch = false)
    (hq : ∀ ch ∈ q, ch ≠ '#' ∧ ch ≠ '?' ∧ ch ≠ ';' ∧ tabCrLf ch = false) :
    urlparse ((c :: cs) ++ ':' :: '/' :: '/' :: (N ++ q)) =
      ⟨c :: cs, N ++ q.takeWhile (fun ch => !netDelim ch),
       q.dropWhile (fun ch => !netDelim ch), [], [], []⟩ := by
  have hall : ∀ a ∈ (c :: cs) ++ ':' :: '/' :: '/' :: (N ++ q), (!tabCrLf a) = true := by
    intro a ha
    simp only [List.mem_append, List.mem_cons] at ha
    rcases ha with (ha | ha) | ha | ha | ha | ha | ha
    · rw [ha, alpha_not_tab c h2]; rfl
    · rw [schemeChar_not_tab a (List.all_eq_true.mp h3 a ha)]; rfl
    · rw [ha]; decide
    · rw [ha]; decide
    · rw [ha]; decide
    · rw [(hN a ha).2]; rfl
    · rw [(hq a ha).2.2.2]; rfl
  have hpre : presplit ((c :: cs) ++ ':' :: '/' :: '/' :: (N ++ q))
      = (c :: cs) ++ ':' :: '/' :: '/' :: (N ++ q) := by
    unfold presplit
    rw [List.cons_append, List.dropWhile_cons]
    simp only [alpha_not_ctrl c h2, Bool.false_eq_true, if_false]
    rw [← List.cons_append]
    exact List.filter_eq_self.mpr hall
  have hcolon : ':' ∉ c :: cs := by
    intro hmem
    rcases List.mem_cons.mp hmem with hm | hm
    · rw [← hm] at h2; exact absurd h2 (by decide)
    · exact absurd (List.all_eq_true.mp h3 _ hm) (by decide)
  have hscheme : splitScheme ((c :: cs) ++ ':' :: '/' :: '/' :: (N ++ q))
      = (c :: cs, '/' :: '/' :: (N ++ q)) := by
    unfold splitScheme
    rw [splitAtChar_first ':' (c :: cs) _ hcolon]
    simp only [h2, h3, Bool.and_self, if_pos, h4]
  have hNpred : ∀ x ∈ N, (!netDelim x) = true := by
    intro x hx
    rw [(hN x hx).1]
    rfl
  have hsubset : (q.dropWhile (fun ch => !netDelim ch)) ⊆ q :=
    (List.dropWhile_sublist _).subset
  have hn1 : splitAtChar '#' (q.dropWhile (fun ch => !netDelim ch)) = none :=
    splitAtChar_not_mem _ _ (fun hm => (hq '#' (hsubset hm)).1 rfl)
  have hn2 : splitAtChar '?' (q.dropWhile (fun ch => !netDelim ch)) = none :=
    splitAtChar_not_mem _ _ (fun hm => (hq '?' (hsubset hm)).2.1 rfl)
  have hsemi : ';' ∉ q.dropWhile (fun ch => !netDelim ch) :=
    fun hm => (hq ';' (hsubset hm)).2.2.1 rfl
  have hnet : splitNetloc (N ++ q) =
      (N ++ q.takeWhile (fun ch => !netDelim ch), q.dropWhile (fun ch => !netDelim ch)) := by
    unfold splitNetloc
    rw [takeWhile_append_all _ N q hNpred, dropWhile_append_all _ N q hNpred]
  have htk : List.take 2 ('/' :: '/' :: (N ++ q)) = ['/', '/'] := rfl
  have hdr : List.drop 2 ('/' :: '/' :: (N ++ q)) = N ++ q := rfl
  unfold urlparse
  simp only [hpre, hscheme, htk, hdr, if_true, eq_self_iff_true, hnet, hn1, hn2]
  by_cases hup : (c :: cs) ∈ usesParams
  · simp only [if_pos hup, splitParams_no_semi _ hsemi]
  · simp only [if_neg hup]

/-- C6 counterexample: the claim asserts idempotence for EVERY URL
string, but `clean_url` is not idempotent on scheme-less URLs (which the
URL patterns accept: the `(https?://)?` group is optional).  Parsing
`instagram.com/p/ABC123` yields no scheme and no netloc, so cleaning
returns `://instagram.com/p/ABC123`; cleaning that again prepends a
second `://`. -/
theorem C6_counterexample :
    ¬ clean_url (clean_url ("instagram.com/p/ABC123".toList))
      = clean_url ("instagram.com/p/ABC123".toList) := by decide

/-- C6 (amended): `clean_url` is idempotent on every URL that parses with
a scheme (e.g. any `http://`/`https://` URL), as long as the parsed path
holds no `;`/`?`/`#`, the netloc no `/?#` delimiter or tab/CR/LF, and the
path does not end in a double slash (so that stripping one trailing slash
leaves none); cleaning strips the query/fragment and one trailing slash,
as in the spec's example.  For scheme-less URLs idempotence fails (see
the counterexample). -/
theorem C6_clean_url_idempotent (u : Str) (c : Char) (cs : Str)
    (h1 : (urlparse u).scheme = c :: cs)
    (h2 : c.isAlpha = true)
    (h3 : cs.all isSchemeChar = true)
    (h4 : (c :: cs).map Char.toLower = c :: cs)
    (h5 : ∀ ch ∈ (urlparse u).netloc, netDelim ch = false ∧ tabCrLf ch = false)
    (h6 : ∀ ch ∈ (urlparse u).path, ch ≠ '#' ∧ ch ≠ '?' ∧ ch ≠ ';' ∧ tabCrLf ch = false)
    (h7 : (stripSlash (urlparse u).path).getLast? ≠ some '/') :
    clean_url (clean_url u) = clean_url u := by
  have hq : ∀ ch ∈ stripSlash (urlparse u).path,
      ch ≠ '#' ∧ ch ≠ '?' ∧ ch ≠ ';' ∧ tabCrLf ch = false :=
    fun ch hm => h6 ch (mem_stripSlash ch _ hm)
  have hstrip_id : ∀ (l : Str), l.getLast? ≠ some '/' → stripSlash l = l := by
    intro l hl
    unfold stripSlash
    rw [if_neg hl]
  have hclean : clean_url u =
      (c :: cs) ++ ':' :: '/' :: '/' :: ((urlparse u).netloc ++ stripSlash (urlparse u).path) := by
    simp only [clean_url, h1]
  have hparse := urlparse_canonical c cs (urlparse u).netloc (stripSlash (urlparse u).path)
    h2 h3 h4 h5 hq
  have happ : (stripSlash (urlparse u).path).takeWhile (fun ch => !netDelim ch)
      ++ (stripSlash (urlparse u).path).dropWhile (fun ch => !netDelim ch)
      = stripSlash (urlparse u).path :=
    List.takeWhile_append_dropWhile _ _
  have hlast : ((stripSlash (urlparse u).path).dropWhile (fun ch => !netDelim ch)).getLast?
      ≠ some '/' := by
    intro hgl
    have hfull : (stripSlash (urlparse u).path).getLast? = some '/' := by
      rw [← happ, List.getLast?_append, hgl]
      rfl
    exact h7 hfull
  have hstrip2 : stripSlash ((stripSlash (urlparse u).path).dropWhile (fun ch => !netDelim ch))
      = (stripSlash (urlparse u).path).dropWhile (fun ch => !netDelim ch) :=
    hstrip_id _ hlast
  rw [hclean]
  simp only [clean_url, hparse]
  rw [hstrip2, List.append_assoc, happ]

/-- C6 amended witness: at the spec's example URL, cleaning strips the
query and the trailing slash, and cleaning is idempotent there. -/
theorem C6_clean_url_idempotent_witness :
    clean_url ("https://www.instagram.com/p/ABC123/?x=1".toList)
      = "https://www.instagram.com/p/ABC123".toList ∧
    clean_url (clean_url ("https://www.instagram.com/p/ABC123/?x=1".toList))
      = clean_url ("https://www.instagram.com/p/ABC123/?x=1".toList) :=
  ⟨by decide,
   C6_clean_url_idempotent ("https://www.instagram.com/p/ABC123/?x=1".toList)
     'h' ("ttps".toList) (by decide) (by decide) (by decide) (by decide)
     (by decide) (by decide) (by decide)⟩

-- sanity checks (matching the repository's unit tests for these helpers)
example : clean_url ("https://www.instagram.com/p/ABC123/?utm_source=ig_web_copy_link".toList)
    = "https://www.instagram.com/p/ABC123".toList := by decide
example : clean_url ("https://www.instagram.com/reel/ABC123/?igshid=123456789".toList)
    = "https://www.instagram.com/reel/ABC123".toList := by decide
example : validate_instagram_url ("https://www.instagram.com/p/ABC123/".toList) = some ("post".toList) := by decide
example : validate_instagram_url ("https://instagram.com/reel/ABC123/".toList) = some ("reel".toList) := by decide
example : validate_instagram_url ("https://www.instagram.com/s/aGlnaGxpZ2h0OjE3OTQ3Mzk2NDQ0OTYyNDI5".toList)
    = some ("highlight".toList) := by decide
example : validate_instagram_url ("https://www.instagram.com/stories/highlights/123456789/".toList)
    = some ("highlights".toList) := by decide
example : validate_instagram_url ("https://www.instagram.com/stories/someuser/3141592653589793238/".toList)
    = some ("stories".toList) := by decide
example : validate_instagram_url ("https://www.example.com".toList) = none := by decide
example : validate_instagram_url ("https://www.instagram.com/username".toList) = none := by decide
example : validate_instagram_url ("not a url".toList) = none := by decide

end InstagramDL
